import Mathlib

/-!
Verification of the GammaExposure pipeline.

The development shallowly embeds the two scripts of the repository:

* `calculate_gex.py` — Black-Scholes gamma and signed gamma-exposure (GEX):
  `d1`, `calculate_gamma`, `calculate_signed_gex`, and the per-strike
  aggregation performed in `main` (group by strike, sum, sort ascending,
  cumulative sum).
* `parse_options_data.py` — structural parsing of the spreadsheet grid:
  `find_table_boundaries`, `find_table_for_month`,
  `get_months_from_first_table`, `filter_table_columns`.

Cells of the spreadsheet grid are modelled as `Option String` (`none` is an
empty / NaN cell); numeric quantities are modelled over `ℝ`, with strikes as
exact rationals `ℚ` where they serve as grouping keys.
-/

/-- A spreadsheet cell: `none` models NaN / empty, `some s` a cell whose
string rendering is `s`. -/
abbrev Cell := Option String

/-- A grid row: the list of its cells, leftmost first. -/
abbrev Row := List Cell

/-- The raw grid: a list of rows. -/
abbrev Grid := List Row

/-! ## Numeric model of `calculate_gex.py` -/

/-- An input row of the GEX stage (`OptionType`, `Strike`, `OI` after
numeric conversion). -/
structure OptionRow where
  optionType : String
  strike : ℝ
  oi : ℝ

/-- `d1(S, K, r, T, sigma)` from `calculate_gex.py`:
`(log(S / K) + (r + 0.5 sigma^2) T) / (sigma sqrt T)`. -/
noncomputable def d1 (S K r T sigma : ℝ) : ℝ :=
  (Real.log (S / K) + (r + 0.5 * sigma ^ 2) * T) / (sigma * Real.sqrt T)

/-- The standard normal density (`scipy.stats.norm.pdf`). -/
noncomputable def norm_pdf (x : ℝ) : ℝ :=
  Real.exp (-(x ^ 2) / 2) / Real.sqrt (2 * Real.pi)

/-- `calculate_gamma` from `calculate_gex.py`: `0` when `T ≤ 0`, otherwise
`phi(d1) / (S sigma sqrt T)`. -/
noncomputable def calculate_gamma (S K r T sigma : ℝ) : ℝ :=
  if T ≤ 0 then 0
  else norm_pdf (d1 S K r T sigma) / (S * sigma * Real.sqrt T)

/-- `calculate_signed_gex` from `calculate_gex.py`: return `0` when the open
interest is `0`; otherwise `gamma * OI * spot * (1/100) * mult`, negated for
a `Put`. -/
noncomputable def calculate_signed_gex (row : OptionRow) (spot iv mult t : ℝ) : ℝ :=
  if row.oi = 0 then 0
  else
    let gamma := calculate_gamma spot row.strike 0 t iv
    let gex := gamma * row.oi * spot * (1 / 100) * mult
    if row.optionType == "Put" then -gex else gex

/-! ### Facts about the gamma model -/

theorem norm_pdf_pos (x : ℝ) : 0 < norm_pdf x := by
  unfold norm_pdf
  exact div_pos (Real.exp_pos _) (Real.sqrt_pos.mpr (by positivity))

theorem calculate_gamma_pos (S K sigma T : ℝ) (hS : 0 < S) (hsig : 0 < sigma)
    (hT : 0 < T) : 0 < calculate_gamma S K 0 T sigma := by
  unfold calculate_gamma
  rw [if_neg (not_le.mpr hT)]
  exact div_pos (norm_pdf_pos _) (by positivity)

/-- C1: for `S, K, sigma, T > 0` and non-zero `OI`, the GEX computed by
`calculate_signed_gex` for a Call equals
`phi(d1) / (S sigma sqrt T) * OI * S * 0.01 * mult` with
`d1 = (ln(S/K) + (r + 0.5 sigma^2) T) / (sigma sqrt T)`, `r = 0`, `phi` the
standard normal density; and for `T ≤ 0` the gamma factor is `0`. -/
theorem gex_call_black_scholes_formula :
    (∀ S K sigma T OI mult : ℝ, 0 < S → 0 < K → 0 < sigma → 0 < T → OI ≠ 0 →
      calculate_signed_gex ⟨"Call", K, OI⟩ S sigma mult T =
        norm_pdf (d1 S K 0 T sigma) / (S * sigma * Real.sqrt T) * OI * S * 0.01 * mult) ∧
    (∀ S K T sigma : ℝ, T ≤ 0 → calculate_gamma S K 0 T sigma = 0) := by
  constructor
  · intro S K sigma T OI mult hS hK hsig hT hOI
    simp only [calculate_signed_gex, calculate_gamma, if_neg hOI, if_neg (not_le.mpr hT)]
    rw [if_neg (by decide : ¬("Call" == "Put") = true)]
    norm_num
  · intro S K T sigma hT
    simp [calculate_gamma, hT]

/-- Witness for C1 at `S = K = sigma = T = OI = mult = 1` (and `T = 0` for
the gamma clause). -/
theorem gex_call_black_scholes_formula_witness :
    calculate_signed_gex ⟨"Call", 1, 1⟩ 1 1 1 1 =
      norm_pdf (d1 1 1 0 1 1) / (1 * 1 * Real.sqrt 1) * 1 * 1 * 0.01 * 1 ∧
    calculate_gamma 1 1 0 0 1 = 0 :=
  ⟨gex_call_black_scholes_formula.1 1 1 1 1 1 1 (by norm_num) (by norm_num)
      (by norm_num) (by norm_num) (by norm_num),
   gex_call_black_scholes_formula.2 1 1 0 1 le_rfl⟩

/-- C3, counterexample: at `T = 0` with `OI = 1 ≠ 0` the code returns
`gex = 0` (the gamma factor is `0`), so `gex = 0` does not imply `OI = 0`. -/
theorem gex_zero_despite_nonzero_oi :
    calculate_signed_gex ⟨"Call", 1, 1⟩ 1 1 1 0 = 0 ∧ (1 : ℝ) ≠ 0 := by
  constructor
  · simp [calculate_signed_gex, calculate_gamma]
  · norm_num

/-- C3, amended: `OI = 0` always forces `gex = 0` (no gamma computation is
performed, so this holds even for `T = 0`); the converse — `gex = 0` only
when `OI = 0` — holds under `spot > 0`, `iv > 0`, `t > 0`, `mult ≠ 0`. -/
theorem gex_zero_iff_oi_zero :
    (∀ (row : OptionRow) (spot iv mult t : ℝ), row.oi = 0 →
      calculate_signed_gex row spot iv mult t = 0) ∧
    (∀ (row : OptionRow) (spot iv mult t : ℝ), 0 < spot → 0 < iv → 0 < t →
      mult ≠ 0 → (calculate_signed_gex row spot iv mult t = 0 ↔ row.oi = 0)) := by
  have hzero : ∀ (row : OptionRow) (spot iv mult t : ℝ), row.oi = 0 →
      calculate_signed_gex row spot iv mult t = 0 := by
    intro row spot iv mult t h
    simp [calculate_signed_gex, h]
  refine ⟨hzero, ?_⟩
  intro row spot iv mult t hS hiv ht hm
  constructor
  · intro hgex
    by_contra hoi
    have hγ : 0 < calculate_gamma spot row.strike 0 t iv :=
      calculate_gamma_pos spot row.strike iv t hS hiv ht
    have hne : calculate_gamma spot row.strike 0 t iv * row.oi * spot * (1 / 100) * mult ≠ 0 := by
      refine mul_ne_zero (mul_ne_zero (mul_ne_zero (mul_ne_zero (ne_of_gt hγ) hoi)
        (ne_of_gt hS)) (by norm_num)) hm
    simp only [calculate_signed_gex, if_neg hoi] at hgex
    by_cases hput : row.optionType == "Put"
    · rw [if_pos hput, neg_eq_zero] at hgex
      exact hne hgex
    · rw [if_neg hput] at hgex
      exact hne hgex
  · exact fun h => hzero row spot iv mult t h

/-- Witness for C3's amended statement at concrete inputs. -/
theorem gex_zero_iff_oi_zero_witness :
    calculate_signed_gex ⟨"Call", 1, 0⟩ 1 1 1 1 = 0 ∧
    (calculate_signed_gex ⟨"Call", 1, 1⟩ 1 1 1 1 = 0 ↔ (1 : ℝ) = 0) :=
  ⟨gex_zero_iff_oi_zero.1 ⟨"Call", 1, 0⟩ 1 1 1 1 rfl,
   gex_zero_iff_oi_zero.2 ⟨"Call", 1, 1⟩ 1 1 1 1 (by norm_num) (by norm_num)
      (by norm_num) (by norm_num)⟩

/-- C4: with identical `S, K, T, sigma, OI, mult`, the Put GEX is the
negation of the Call GEX. -/
theorem put_gex_neg_call_gex (strike oi spot iv mult t : ℝ) :
    calculate_signed_gex ⟨"Put", strike, oi⟩ spot iv mult t =
      - calculate_signed_gex ⟨"Call", strike, oi⟩ spot iv mult t := by
  by_cases h : oi = 0
  · simp [calculate_signed_gex, h]
  · simp [calculate_signed_gex, h]

/-! ## Structural model of `parse_options_data.py` -/

/-- Python's `str.strip()`: drop leading and trailing whitespace. -/
def pyStrip (s : String) : String :=
  ⟨((s.toList.dropWhile Char.isWhitespace).reverse.dropWhile Char.isWhitespace).reverse⟩

/-- Python's `str.lower()`. -/
def pyLower (s : String) : String :=
  ⟨s.toList.map Char.toLower⟩

/-- Python's `str.upper()`. -/
def pyUpper (s : String) : String :=
  ⟨s.toList.map Char.toUpper⟩

/-- First-column text of a row, as read by the scanners:
`str(row.iloc[0]).strip()` when the cell is not NaN, else `""`. -/
def firstColText (r : Row) : String :=
  match r.head? with
  | some (some s) => pyStrip s
  | _ => ""

/-- Python's substring test `"No month data" in s`. -/
def containsNoMonthData (s : String) : Bool :=
  decide ("No month data".toList <:+: s.toList)

/-- The sentinel test of `find_table_boundaries` (and the end-of-table scan
of `find_table_for_month`): first-column text equal to `"TOTALS"` or
containing `"No month data"`. -/
def isSentinelRow (r : Row) : Bool :=
  firstColText r == "TOTALS" || containsNoMonthData (firstColText r)

/-- The row loop of `find_table_boundaries`: given the remaining rows, the
current row index and the running `table_start`, return the closed
boundaries and the final `table_start`. -/
def segScan : Grid → Nat → Nat → List (Nat × Nat) × Nat
  | [], _, start => ([], start)
  | r :: rs, idx, start =>
    if isSentinelRow r then
      let p := segScan rs (idx + 1) (idx + 1)
      ((start, idx) :: p.1, p.2)
    else segScan rs (idx + 1) start

/-- `find_table_boundaries` from `parse_options_data.py`: scan all rows,
then append a final segment `(table_start, len(df) - 1)` when
`table_start < len(df)`. -/
def find_table_boundaries (g : Grid) : List (Nat × Nat) :=
  let p := segScan g 0 0
  if p.2 < g.length then p.1 ++ [(p.2, g.length - 1)] else p.1

/-- The row indices covered by a boundary pair (both endpoints
inclusive). -/
def segRange (p : Nat × Nat) : List Nat :=
  List.range' p.1 (p.2 + 1 - p.1)

theorem segScan_invariant (rows : Grid) : ∀ idx start : Nat, start ≤ idx →
    ((segScan rows idx start).1.flatMap segRange) ++
        List.range' (segScan rows idx start).2
          (idx + rows.length - (segScan rows idx start).2)
      = List.range' start (idx + rows.length - start)
    ∧ start ≤ (segScan rows idx start).2
    ∧ (segScan rows idx start).2 ≤ idx + rows.length
    ∧ ∀ q ∈ (segScan rows idx start).1, q.1 ≤ q.2 := by
  induction rows with
  | nil =>
    intro idx start h
    refine ⟨by simp [segScan], le_rfl, by simpa [segScan] using h, by simp [segScan]⟩
  | cons r rs ih =>
    intro idx start h
    by_cases hs : isSentinelRow r
    · obtain ⟨hcov, hlb, hub, hall⟩ := ih (idx + 1) (idx + 1) le_rfl
      have hseg : segScan (r :: rs) idx start =
          ((start, idx) :: (segScan rs (idx + 1) (idx + 1)).1,
            (segScan rs (idx + 1) (idx + 1)).2) := by
        simp [segScan, hs]
      rw [hseg]
      dsimp only
      have hm : start + (idx + 1 - start) = idx + 1 := by omega
      refine ⟨?_, le_trans (le_trans h (Nat.le_succ idx)) hlb,
        by simp only [List.length_cons]; omega, ?_⟩
      · have e1 : idx + (r :: rs).length - (segScan rs (idx + 1) (idx + 1)).2
            = (idx + 1) + rs.length - (segScan rs (idx + 1) (idx + 1)).2 := by
          simp only [List.length_cons]; omega
        rw [e1, List.flatMap_cons, List.append_assoc, hcov]
        have e2 : (idx + 1) + rs.length - (idx + 1) = rs.length := by omega
        rw [e2]
        have e3 : segRange (start, idx) = List.range' start (idx + 1 - start) := rfl
        rw [e3]
        have h4 := List.range'_append start (idx + 1 - start) rs.length 1
        rw [one_mul, hm] at h4
        rw [h4]
        congr 1
        simp only [List.length_cons]
        omega
      · intro q hq
        rcases List.mem_cons.mp hq with hq | hq
        · rw [hq]; exact h
        · exact hall q hq
    · obtain ⟨hcov, hlb, hub, hall⟩ := ih (idx + 1) start (le_trans h (Nat.le_succ idx))
      have hseg : segScan (r :: rs) idx start = segScan rs (idx + 1) start := by
        simp [segScan, hs]
      rw [hseg]
      have e1 : idx + (r :: rs).length = (idx + 1) + rs.length := by
        simp only [List.length_cons]; omega
      rw [e1]
      exact ⟨hcov, hlb, hub, hall⟩

/-- C2: the boundaries returned by `find_table_boundaries` are an ordered,
contiguous, non-overlapping partition: each boundary is a non-empty range,
and concatenating the covered indices in order yields exactly
`0, 1, …, len - 1` — also for the empty grid. -/
theorem find_table_boundaries_partition (g : Grid) :
    (find_table_boundaries g).flatMap segRange = List.range g.length
    ∧ (find_table_boundaries g).all (fun q => decide (q.1 ≤ q.2)) = true := by
  obtain ⟨hcov, hlb, hub, hall⟩ := segScan_invariant g 0 0 le_rfl
  simp only [Nat.zero_add, Nat.sub_zero] at hcov hub
  rw [List.range_eq_range']
  unfold find_table_boundaries
  by_cases hlt : (segScan g 0 0).2 < g.length
  · rw [if_pos hlt]
    constructor
    · rw [List.flatMap_append]
      simp only [List.flatMap_cons, List.flatMap_nil, List.append_nil]
      have e1 : segRange ((segScan g 0 0).2, g.length - 1)
          = List.range' (segScan g 0 0).2 (g.length - (segScan g 0 0).2) := by
        simp only [segRange]
        congr 1
        omega
      rw [e1, hcov]
    · rw [List.all_eq_true]
      intro q hq
      rcases List.mem_append.mp hq with hq | hq
      · exact decide_eq_true (hall q hq)
      · rcases List.mem_singleton.mp hq with rfl
        exact decide_eq_true (by simp only []; omega)
  · rw [if_neg hlt]
    have hp2 : (segScan g 0 0).2 = g.length := by omega
    rw [hp2] at hcov
    simp only [Nat.sub_self, List.range'_zero, List.append_nil] at hcov
    exact ⟨hcov, List.all_eq_true.mpr fun q hq => decide_eq_true (hall q hq)⟩

/-- C5: a row closes a segment exactly when its first-column trimmed text
equals `"TOTALS"` (case-sensitively) or contains the substring
`"No month data"` (case-sensitively); in particular `"totals"` or
`"Totals"` never closes a segment — on the two-row grid below, `"totals"`
yields a single segment while `"TOTALS"` closes one at row `0`. -/
theorem sentinel_rule_case_sensitive :
    (∀ r : Row, isSentinelRow r = true ↔
      (firstColText r = "TOTALS" ∨ "No month data".toList <:+: (firstColText r).toList))
    ∧ find_table_boundaries [[some "totals"], [some "x"]] = [(0, 1)]
    ∧ find_table_boundaries [[some "TOTALS"], [some "x"]] = [(0, 0), (1, 1)]
    ∧ isSentinelRow [some "totals"] = false
    ∧ isSentinelRow [some "Totals"] = false := by
  refine ⟨?_, by decide, by decide, by decide, by decide⟩
  intro r
  simp [isSentinelRow, containsNoMonthData]

/-! ## Month-table location (`find_table_for_month`) -/

/-- A forward row / cell scan: index (relative to `off`) of the first
element satisfying `p`, as in the `for idx, row in df.iterrows()` loops. -/
def findIdxFrom (p : α → Bool) : List α → Nat → Option Nat
  | [], _ => none
  | a :: as, idx => if p a then some idx else findIdxFrom p as (idx + 1)

/-- An extracted table: the header row providing column names, and the data
rows. -/
structure Table where
  header : Row
  rows : List Row
deriving DecidableEq

/-- A row every cell of which is NaN (dropped by `dropna(how='all')`). -/
def rowAllNone (r : Row) : Bool :=
  r.all (fun c => c.isNone)

/-- Rows `a … b` (inclusive) of the grid, with entirely-empty rows dropped:
`df.iloc[a:b + 1] … .dropna(how='all')`. -/
def extractWindow (g : Grid) (a b : Nat) : List Row :=
  ((g.drop a).take (b + 1 - a)).filter (fun r => !rowAllNone r)

/-- `find_table_for_month` from `parse_options_data.py`: locate the title
row `"{month} {table_type}"`, take the next row as header, the rows from
two past the title up to one before the next sentinel (or the last grid
row) as data, and drop all-NaN rows; `(empty, False)` when no title row
matches. -/
def find_table_for_month (g : Grid) (month tableType : String) : Table × Bool :=
  let searchText := month ++ " " ++ tableType
  match findIdxFrom (fun r => firstColText r == searchText) g 0 with
  | none => (⟨[], []⟩, false)
  | some idx =>
    let headerRowIdx := idx + 1
    let dataStartIdx := idx + 2
    let tableEnd :=
      match findIdxFrom isSentinelRow (g.drop dataStartIdx) dataStartIdx with
      | some e => e - 1
      | none => g.length - 1
    (⟨g.getD headerRowIdx [], extractWindow g dataStartIdx tableEnd⟩, true)

/-! ### First-match characterization of the scans -/

theorem findIdxFrom_eq_none_iff (p : α → Bool) :
    ∀ (l : List α) (off : Nat),
      findIdxFrom p l off = none ↔ ∀ a ∈ l, p a = false := by
  intro l
  induction l with
  | nil => intro off; simp [findIdxFrom]
  | cons a as ih =>
    intro off
    by_cases hp : p a
    · simp [findIdxFrom, hp]
    · simp only [findIdxFrom, if_neg hp, ih (off + 1), List.mem_cons]
      constructor
      · intro h b hb
        rcases hb with rfl | hb
        · exact Bool.eq_false_iff.mpr hp
        · exact h b hb
      · intro h b hb
        exact h b (Or.inr hb)

theorem findIdxFrom_first (p : α → Bool) (d : α) :
    ∀ (l : List α) (off j : Nat), j < l.length → p (l.getD j d) = true →
      (∀ i, i < j → p (l.getD i d) = false) →
      findIdxFrom p l off = some (off + j) := by
  intro l
  induction l with
  | nil => intro off j hj; exact absurd hj (by simp)
  | cons a as ih =>
    intro off j hj hpj hfirst
    cases j with
    | zero =>
      simp only [List.getD_cons_zero] at hpj
      simp [findIdxFrom, hpj]
    | succ j =>
      have ha : p a = false := by
        have := hfirst 0 (Nat.succ_pos j)
        simpa using this
      rw [findIdxFrom, if_neg (Bool.eq_false_iff.mp ha)]
      have hres := ih (off + 1) j (by simpa using Nat.lt_of_succ_lt_succ hj)
        (by simpa using hpj) (fun i hi => by simpa using hfirst (i + 1) (Nat.succ_lt_succ hi))
      rw [hres]
      congr 1
      omega

theorem findIdxFrom_eq_some (p : α → Bool) (d : α) :
    ∀ (l : List α) (off e : Nat), findIdxFrom p l off = some e →
      off ≤ e ∧ e - off < l.length ∧ p (l.getD (e - off) d) = true ∧
        ∀ i, i < e - off → p (l.getD i d) = false := by
  intro l
  induction l with
  | nil => intro off e h; exact absurd h (by simp [findIdxFrom])
  | cons a as ih =>
    intro off e h
    by_cases hp : p a
    · rw [findIdxFrom, if_pos hp] at h
      have he : e = off := by
        have := Option.some.inj h
        omega
      subst he
      refine ⟨le_rfl, by simp, by simpa using hp, fun i hi => absurd hi (by omega)⟩
    · rw [findIdxFrom, if_neg hp] at h
      obtain ⟨h1, h2, h3, h4⟩ := ih (off + 1) e h
      have hoff : off ≤ e := by omega
      have hsub : e - off = (e - (off + 1)) + 1 := by omega
      refine ⟨hoff, ?_, ?_, ?_⟩
      · simp only [List.length_cons]
        omega
      · rw [hsub, List.getD_cons_succ]
        exact h3
      · intro i hi
        cases i with
        | zero => simpa using Bool.eq_false_iff.mpr hp
        | succ i =>
          rw [List.getD_cons_succ]
          exact h4 i (by omega)

theorem getD_drop_add (g : List α) (s i : Nat) (d : α) :
    (g.drop s).getD i d = g.getD (s + i) d := by
  simp [List.getD_eq_getElem?_getD, List.getElem?_drop]

/-- C6: if some row's first-column trimmed text equals `"{month} {side}"`,
the locator reports found, takes row `r+1` as the header row and extracts
the data rows from `r+2` up to one row before the first subsequent
sentinel row (`"TOTALS"` / containing `"No month data"`), or up to the
grid's last row when no sentinel follows, dropping entirely empty rows; if
no row matches the title it returns a not-found result. -/
theorem find_table_for_month_spec (g : Grid) (month side : String) :
    ((∀ r ∈ g, firstColText r ≠ month ++ " " ++ side) →
      find_table_for_month g month side = (⟨[], []⟩, false))
    ∧ (∀ k, k < g.length → firstColText (g.getD k []) = month ++ " " ++ side →
        (∀ j, j < k → firstColText (g.getD j []) ≠ month ++ " " ++ side) →
        (find_table_for_month g month side).2 = true
        ∧ (find_table_for_month g month side).1.header = g.getD (k + 1) []
        ∧ ((∃ e, k + 2 ≤ e ∧ e < g.length ∧ isSentinelRow (g.getD e []) = true
              ∧ (∀ j, k + 2 ≤ j → j < e → isSentinelRow (g.getD j []) = false)
              ∧ (find_table_for_month g month side).1.rows
                  = extractWindow g (k + 2) (e - 1))
          ∨ ((∀ j, k + 2 ≤ j → j < g.length → isSentinelRow (g.getD j []) = false)
              ∧ (find_table_for_month g month side).1.rows
                  = extractWindow g (k + 2) (g.length - 1)))) := by
  constructor
  · intro h
    have hnone : findIdxFrom (fun r => firstColText r == month ++ " " ++ side) g 0 = none :=
      (findIdxFrom_eq_none_iff _ g 0).mpr fun r hr => beq_eq_false_iff_ne.mpr (h r hr)
    simp [find_table_for_month, hnone]
  · intro k hk htitle hfirst
    have hsome : findIdxFrom (fun r => firstColText r == month ++ " " ++ side) g 0 = some k := by
      have := findIdxFrom_first (fun r => firstColText r == month ++ " " ++ side) [] g 0 k hk
        (by simp only [beq_iff_eq]; exact htitle)
        (fun i hi => beq_eq_false_iff_ne.mpr (hfirst i hi))
      simpa using this
    cases he : findIdxFrom isSentinelRow (g.drop (k + 2)) (k + 2) with
    | none =>
      refine ⟨?_, ?_, Or.inr ⟨?_, ?_⟩⟩
      · simp [find_table_for_month, hsome, he]
      · simp [find_table_for_month, hsome, he]
      · intro j hj1 hj2
        have hmem := (findIdxFrom_eq_none_iff isSentinelRow (g.drop (k + 2)) (k + 2)).mp he
        have hlen : j - (k + 2) < (g.drop (k + 2)).length := by
          rw [List.length_drop]; omega
        have hm : (g.drop (k + 2)).getD (j - (k + 2)) [] ∈ g.drop (k + 2) := by
          rw [List.getD_eq_getElem _ _ hlen]; exact List.getElem_mem hlen
        have hf := hmem _ hm
        rwa [getD_drop_add, Nat.add_sub_cancel' hj1] at hf
      · simp [find_table_for_month, hsome, he]
    | some e =>
      obtain ⟨h1, h2, h3, h4⟩ := findIdxFrom_eq_some isSentinelRow [] (g.drop (k + 2)) (k + 2) e he
      rw [List.length_drop] at h2
      refine ⟨?_, ?_, Or.inl ⟨e, h1, by omega, ?_, ?_, ?_⟩⟩
      · simp [find_table_for_month, hsome, he]
      · simp [find_table_for_month, hsome, he]
      · rwa [getD_drop_add, Nat.add_sub_cancel' h1] at h3
      · intro j hj1 hj2
        have hf := h4 (j - (k + 2)) (by omega)
        rwa [getD_drop_add, Nat.add_sub_cancel' hj1] at hf
      · simp [find_table_for_month, hsome, he]

/-- Witness for C6: an empty grid is not-found; on a four-row grid with a
`"JUN 26 Calls"` title at row `0` the locator reports found. -/
theorem find_table_for_month_spec_witness :
    find_table_for_month [] "JUN 26" "Calls" = (⟨[], []⟩, false)
    ∧ (find_table_for_month
        [[some "JUN 26 Calls"], [some "Strike", some "At Close"],
          [some "100", some "10"], [some "TOTALS"]] "JUN 26" "Calls").2 = true :=
  ⟨(find_table_for_month_spec [] "JUN 26" "Calls").1
      (fun r hr => absurd hr (List.not_mem_nil r)),
   ((find_table_for_month_spec
        [[some "JUN 26 Calls"], [some "Strike", some "At Close"],
          [some "100", some "10"], [some "TOTALS"]] "JUN 26" "Calls").2 0
      (by decide) (by decide) (fun j hj => absurd hj (Nat.not_lt_zero j))).1⟩

/-! ## Column discovery and projection -/

/-- Python's `str(cell)` on header / column values: NaN prints as
`"nan"`. -/
def cellStr (c : Cell) : String :=
  match c with
  | some s => s
  | none => "nan"

/-- The month-column test `str(col).lower().strip() == "month"`. -/
def isMonthCol (c : Cell) : Bool :=
  pyStrip (pyLower (cellStr c)) == "month"

/-- The strike-column test `str(col).lower().strip() == "strike"`. -/
def isStrikeCol (c : Cell) : Bool :=
  pyStrip (pyLower (cellStr c)) == "strike"

/-- The open-interest-column test `str(col).lower().strip() == "at close"`. -/
def isAtCloseCol (c : Cell) : Bool :=
  pyStrip (pyLower (cellStr c)) == "at close"

/-- `get_months_from_first_table` from `parse_options_data.py`: find the
month column (first header cell matching case-insensitively after trim),
raising `ValueError` carrying the columns actually present when none
matches; otherwise the distinct non-NaN values of that column, stripped,
with `"TOTALS"` rows excluded. -/
def get_months_from_first_table (t : Table) : Except Row (List String) :=
  match findIdxFrom isMonthCol t.header 0 with
  | none => .error t.header
  | some j =>
    .ok ((((t.rows.filterMap (fun r => r.getD j none)).eraseDups).filter
      (fun m => pyUpper (pyStrip m) != "TOTALS")).map pyStrip)

/-- `filter_table_columns` from `parse_options_data.py`: keep the first
column matching `"strike"` then the first matching `"at close"` (both
case-insensitively after trim); when neither is found, return the table
unmodified. -/
def filter_table_columns (t : Table) : Table :=
  let strikeIdx := findIdxFrom isStrikeCol t.header 0
  let atCloseIdx := findIdxFrom isAtCloseCol t.header 0
  let keep := strikeIdx.toList ++ atCloseIdx.toList
  if keep.isEmpty then t
  else ⟨keep.map (fun j => t.header.getD j none),
        t.rows.map (fun r => keep.map (fun j => r.getD j none))⟩

/-- C9, counterexample: on a table whose only column is `"Foo"`, the column
projection does not raise — it returns the table unmodified, contradicting
the claim that a missing `"Strike"`/`"At Close"` column raises an error
and aborts the stage. -/
theorem filter_table_columns_missing_passthrough :
    filter_table_columns ⟨[some "Foo"], [[some "1"]]⟩ = ⟨[some "Foo"], [[some "1"]]⟩ := by
  decide

/-- C9, amended: a missing `"Month"` column during month discovery raises
an error carrying the columns actually present (and a present month column
yields a normal result), while the `"Strike"`/`"At Close"` projection
never raises: when neither column is found it passes the table through
unmodified. -/
theorem required_column_missing_behavior :
    (∀ t : Table, (∀ c ∈ t.header, isMonthCol c = false) →
      get_months_from_first_table t = .error t.header)
    ∧ (∀ t : Table, (∃ c ∈ t.header, isMonthCol c = true) →
      ∃ ms, get_months_from_first_table t = .ok ms)
    ∧ (∀ t : Table, (∀ c ∈ t.header, isStrikeCol c = false ∧ isAtCloseCol c = false) →
      filter_table_columns t = t) := by
  refine ⟨?_, ?_, ?_⟩
  · intro t h
    have hnone : findIdxFrom isMonthCol t.header 0 = none :=
      (findIdxFrom_eq_none_iff _ _ _).mpr h
    simp [get_months_from_first_table, hnone]
  · intro t h
    cases hf : findIdxFrom isMonthCol t.header 0 with
    | none =>
      obtain ⟨c, hc, hcol⟩ := h
      have := (findIdxFrom_eq_none_iff _ _ _).mp hf c hc
      rw [hcol] at this
      exact absurd this (by simp)
    | some j =>
      refine ⟨(((t.rows.filterMap (fun r => r.getD j none)).eraseDups).filter
        (fun m => pyUpper (pyStrip m) != "TOTALS")).map pyStrip, ?_⟩
      unfold get_months_from_first_table
      rw [hf]
  · intro t h
    have hs : findIdxFrom isStrikeCol t.header 0 = none :=
      (findIdxFrom_eq_none_iff _ _ _).mpr fun c hc => (h c hc).1
    have ha : findIdxFrom isAtCloseCol t.header 0 = none :=
      (findIdxFrom_eq_none_iff _ _ _).mpr fun c hc => (h c hc).2
    simp [filter_table_columns, hs, ha]

/-- Witness for C9's amended statement on concrete tables. -/
theorem required_column_missing_behavior_witness :
    get_months_from_first_table ⟨[some "Foo"], []⟩ = .error [some "Foo"]
    ∧ (∃ ms, get_months_from_first_table ⟨[some "Month"], [[some "JAN 26"]]⟩ = .ok ms)
    ∧ filter_table_columns ⟨[some "Foo"], []⟩ = ⟨[some "Foo"], []⟩ :=
  ⟨required_column_missing_behavior.1 ⟨[some "Foo"], []⟩ (by decide),
   required_column_missing_behavior.2.1 ⟨[some "Month"], [[some "JAN 26"]]⟩ (by decide),
   required_column_missing_behavior.2.2 ⟨[some "Foo"], []⟩ (by decide)⟩

/-- C10: when exactly one of the two headers `"strike"` / `"at close"`
(case-insensitive, trimmed) is present, the projector keeps exactly that
one matched column; the pass-through fallback applies when neither header
is found. -/
theorem filter_single_column_projection :
    (∀ (t : Table) (j : Nat), j < t.header.length →
      isStrikeCol (t.header.getD j none) = true →
      (∀ i, i < j → isStrikeCol (t.header.getD i none) = false) →
      (∀ c ∈ t.header, isAtCloseCol c = false) →
      filter_table_columns t =
        ⟨[t.header.getD j none], t.rows.map (fun r => [r.getD j none])⟩)
    ∧ (∀ (t : Table) (j : Nat), j < t.header.length →
      isAtCloseCol (t.header.getD j none) = true →
      (∀ i, i < j → isAtCloseCol (t.header.getD i none) = false) →
      (∀ c ∈ t.header, isStrikeCol c = false) →
      filter_table_columns t =
        ⟨[t.header.getD j none], t.rows.map (fun r => [r.getD j none])⟩)
    ∧ (∀ t : Table, (∀ c ∈ t.header, isStrikeCol c = false ∧ isAtCloseCol c = false) →
      filter_table_columns t = t) := by
  refine ⟨?_, ?_, ?_⟩
  · intro t j hj hstrike hfirst hnoat
    have hs : findIdxFrom isStrikeCol t.header 0 = some j := by
      simpa using findIdxFrom_first isStrikeCol none t.header 0 j hj hstrike hfirst
    have ha : findIdxFrom isAtCloseCol t.header 0 = none :=
      (findIdxFrom_eq_none_iff _ _ _).mpr hnoat
    simp [filter_table_columns, hs, ha]
  · intro t j hj hat hfirst hnostrike
    have ha : findIdxFrom isAtCloseCol t.header 0 = some j := by
      simpa using findIdxFrom_first isAtCloseCol none t.header 0 j hj hat hfirst
    have hs : findIdxFrom isStrikeCol t.header 0 = none :=
      (findIdxFrom_eq_none_iff _ _ _).mpr hnostrike
    simp [filter_table_columns, hs, ha]
  · intro t h
    have hs : findIdxFrom isStrikeCol t.header 0 = none :=
      (findIdxFrom_eq_none_iff _ _ _).mpr fun c hc => (h c hc).1
    have ha : findIdxFrom isAtCloseCol t.header 0 = none :=
      (findIdxFrom_eq_none_iff _ _ _).mpr fun c hc => (h c hc).2
    simp [filter_table_columns, hs, ha]

/-- Witness for C10 on concrete tables: strike only, at-close only, and
neither. -/
theorem filter_single_column_projection_witness :
    filter_table_columns ⟨[some "Strike", some "Foo"], [[some "100", some "1"]]⟩ =
      ⟨[some "Strike"], [[some "100"]]⟩
    ∧ filter_table_columns ⟨[some "Bar", some "At Close"], [[some "7", some "5"]]⟩ =
      ⟨[some "At Close"], [[some "5"]]⟩
    ∧ filter_table_columns ⟨[some "Baz"], [[some "2"]]⟩ = ⟨[some "Baz"], [[some "2"]]⟩ :=
  ⟨filter_single_column_projection.1 ⟨[some "Strike", some "Foo"], [[some "100", some "1"]]⟩
      0 (by decide) (by decide) (fun i hi => absurd hi (Nat.not_lt_zero i)) (by decide),
   filter_single_column_projection.2.1 ⟨[some "Bar", some "At Close"], [[some "7", some "5"]]⟩
      1 (by decide) (by decide) (by decide) (by decide),
   filter_single_column_projection.2.2 ⟨[some "Baz"], [[some "2"]]⟩ (by decide)⟩

/-! ## Per-strike aggregation (`main` of `calculate_gex.py`) -/

/-- One computed GEX record: the strike (an exact decimal value, modelled
as a rational grouping key) and its signed GEX. -/
structure GexRecord where
  strike : ℚ
  gex : ℝ

/-- The sorted distinct strikes: the index of
`df.groupby('Strike')['GEX'].sum().sort_index()`. -/
def strikeKeys (recs : List GexRecord) : List ℚ :=
  ((recs.map GexRecord.strike).dedup).insertionSort (· ≤ ·)

/-- `df.groupby('Strike')['GEX'].sum().sort_index()` from `main`: one pair
per distinct strike, ascending, carrying the sum of the `GEX` values of
the records with exactly that strike. -/
noncomputable def gexByStrike (recs : List GexRecord) : List (ℚ × ℝ) :=
  (strikeKeys recs).map (fun k =>
    (k, ((recs.filter (fun r => decide (r.strike = k))).map GexRecord.gex).sum))

/-- pandas `Series.cumsum`: the running prefix sums. -/
noncomputable def cumsum : List ℝ → List ℝ
  | [] => []
  | x :: xs => x :: (cumsum xs).map (fun y => x + y)

/-- The cumulative GEX series plotted by `main`
(`gex_by_strike.cumsum()`). -/
noncomputable def cumulativeGex (recs : List GexRecord) : List ℝ :=
  cumsum ((gexByStrike recs).map Prod.snd)

theorem sum_map_indicator (keys : List ℚ) (a : ℚ) (x : ℝ) :
    keys.Nodup → a ∈ keys →
    (keys.map (fun k => if a = k then x else 0)).sum = x := by
  induction keys with
  | nil => intro _ ha; exact absurd ha (List.not_mem_nil a)
  | cons k ks ih =>
    intro hnd ha
    obtain ⟨hk, hks⟩ := List.nodup_cons.mp hnd
    rcases List.mem_cons.mp ha with rfl | ha
    · rw [List.map_cons, List.sum_cons, if_pos rfl]
      have hrest : (ks.map (fun k => if a = k then x else 0)).sum = 0 := by
        refine List.sum_eq_zero ?_
        intro y hy
        obtain ⟨b, hb, rfl⟩ := List.mem_map.mp hy
        rw [if_neg]
        intro hab
        exact hk (hab ▸ hb)
      rw [hrest, add_zero]
    · have hak : a ≠ k := by
        intro hak
        exact hk (hak ▸ ha)
      rw [List.map_cons, List.sum_cons, if_neg hak, zero_add]
      exact ih hks ha

theorem grouped_sum_eq_total (keys : List ℚ) (recs : List GexRecord) :
    keys.Nodup → (∀ r ∈ recs, r.strike ∈ keys) →
    (keys.map (fun k =>
        ((recs.filter (fun r => decide (r.strike = k))).map GexRecord.gex).sum)).sum
      = (recs.map GexRecord.gex).sum := by
  induction recs with
  | nil =>
    intro _ _
    simp
  | cons r rest ih =>
    intro hnd hmem
    have hstep : keys.map (fun k =>
        (((r :: rest).filter (fun x => decide (x.strike = k))).map GexRecord.gex).sum)
        = keys.map (fun k =>
          ((rest.filter (fun x => decide (x.strike = k))).map GexRecord.gex).sum
            + (if r.strike = k then r.gex else 0)) := by
      refine List.map_congr_left ?_
      intro k _
      rw [List.filter_cons]
      by_cases hr : r.strike = k
      · rw [if_pos (by simpa using hr), List.map_cons, List.sum_cons, if_pos hr]
        exact add_comm _ _
      · rw [if_neg (by simpa using hr), if_neg hr, add_zero]
    rw [hstep, List.sum_map_add,
      ih hnd (fun x hx => hmem x (List.mem_cons_of_mem r hx)),
      sum_map_indicator keys r.strike r.gex hnd (hmem r (List.mem_cons_self r rest)),
      List.map_cons, List.sum_cons]
    exact add_comm _ _

theorem strikeKeys_nodup (recs : List GexRecord) : (strikeKeys recs).Nodup :=
  (List.perm_insertionSort (· ≤ ·) _).symm.nodup
    (List.nodup_dedup (recs.map GexRecord.strike))

theorem mem_strikeKeys (recs : List GexRecord) (r : GexRecord) (hr : r ∈ recs) :
    r.strike ∈ strikeKeys recs := by
  unfold strikeKeys
  rw [(List.perm_insertionSort (· ≤ ·) _).mem_iff, List.mem_dedup]
  exact List.mem_map_of_mem GexRecord.strike hr

/-- C7: the sum of the per-strike net GEX values produced by the
aggregation equals the sum of the GEX of all input records — grouping by
exact strike and summing loses and duplicates no mass. -/
theorem aggregation_preserves_total_gex (recs : List GexRecord) :
    ((gexByStrike recs).map Prod.snd).sum = (recs.map GexRecord.gex).sum := by
  unfold gexByStrike
  rw [List.map_map]
  exact grouped_sum_eq_total (strikeKeys recs) recs (strikeKeys_nodup recs)
    (fun r hr => mem_strikeKeys recs r hr)

theorem cumsum_length : ∀ l : List ℝ, (cumsum l).length = l.length
  | [] => rfl
  | x :: xs => by
    rw [cumsum, List.length_cons, List.length_map, cumsum_length xs, List.length_cons]

theorem getD_map_lt {α β : Type} (f : α → β) (d : α) (e : β) :
    ∀ (l : List α) (i : Nat), i < l.length → (l.map f).getD i e = f (l.getD i d) := by
  intro l
  induction l with
  | nil => intro i hi; exact absurd hi (by simp)
  | cons a as ih =>
    intro i hi
    cases i with
    | zero => rfl
    | succ i =>
      rw [List.map_cons, List.getD_cons_succ, List.getD_cons_succ]
      exact ih i (by simpa using Nat.lt_of_succ_lt_succ hi)

theorem cumsum_head : ∀ l : List ℝ, l ≠ [] → (cumsum l).getD 0 0 = l.getD 0 0
  | [], h => absurd rfl h
  | _ :: _, _ => rfl

theorem cumsum_step : ∀ (l : List ℝ) (i : Nat), i + 1 < l.length →
    (cumsum l).getD (i + 1) 0 = (cumsum l).getD i 0 + l.getD (i + 1) 0 := by
  intro l
  induction l with
  | nil => intro i hi; exact absurd hi (by simp)
  | cons x xs ih =>
    intro i hi
    have hxs : 0 < xs.length := by
      simp only [List.length_cons] at hi
      omega
    cases i with
    | zero =>
      rw [cumsum, List.getD_cons_succ, List.getD_cons_zero, List.getD_cons_succ,
        getD_map_lt _ (0 : ℝ) _ _ 0 (by rw [cumsum_length]; exact hxs)]
      congr 1
      exact cumsum_head xs (List.length_pos.mp hxs)
    | succ i =>
      have hi2 : i + 1 < xs.length := by
        simp only [List.length_cons] at hi
        omega
      rw [cumsum, List.getD_cons_succ, List.getD_cons_succ, List.getD_cons_succ,
        getD_map_lt _ (0 : ℝ) _ _ (i + 1) (by rw [cumsum_length]; exact hi2),
        getD_map_lt _ (0 : ℝ) _ _ i (by rw [cumsum_length]; omega),
        ih i hi2]
      ring

/-- C8: the aggregated output is ordered by ascending strike, and the
cumulative series is the prefix sum of the per-strike net GEX in that
order: entry `0` equals net GEX entry `0`, and entry `i` equals entry
`i - 1` plus net GEX entry `i` for `0 < i`. -/
theorem aggregation_cumulative_prefix_sums (recs : List GexRecord) :
    ((gexByStrike recs).map Prod.fst).Sorted (· ≤ ·)
    ∧ (cumulativeGex recs).length = (gexByStrike recs).length
    ∧ (0 < (gexByStrike recs).length →
        (cumulativeGex recs).getD 0 0 = ((gexByStrike recs).map Prod.snd).getD 0 0)
    ∧ (∀ i, 0 < i → i < (gexByStrike recs).length →
        (cumulativeGex recs).getD i 0
          = (cumulativeGex recs).getD (i - 1) 0
            + ((gexByStrike recs).map Prod.snd).getD i 0) := by
  refine ⟨?_, ?_, ?_, ?_⟩
  · unfold gexByStrike
    rw [List.map_map]
    have hid : (Prod.fst ∘ fun k =>
        (k, ((recs.filter (fun r => decide (r.strike = k))).map GexRecord.gex).sum))
        = fun k : ℚ => k := rfl
    rw [hid]
    have := List.sorted_insertionSort (α := ℚ) (· ≤ ·) ((recs.map GexRecord.strike).dedup)
    simpa [strikeKeys] using this
  · unfold cumulativeGex
    rw [cumsum_length, List.length_map]
  · intro hpos
    unfold cumulativeGex
    refine cumsum_head _ ?_
    intro hnil
    have hlen := congrArg List.length hnil
    simp only [List.length_map, List.length_nil] at hlen
    omega
  · intro i hi hilen
    obtain ⟨j, rfl⟩ : ∃ j, i = j + 1 := ⟨i - 1, by omega⟩
    unfold cumulativeGex
    rw [Nat.add_sub_cancel]
    exact cumsum_step _ j (by rw [List.length_map]; exact hilen)

/-- Witness for C8 on two records with strikes `1` and `3`. -/
theorem aggregation_cumulative_prefix_sums_witness :
    (cumulativeGex [⟨1, 2⟩, ⟨3, 4⟩]).getD 0 0
        = ((gexByStrike [⟨1, 2⟩, ⟨3, 4⟩]).map Prod.snd).getD 0 0
    ∧ (cumulativeGex [⟨1, 2⟩, ⟨3, 4⟩]).getD 1 0
        = (cumulativeGex [⟨1, 2⟩, ⟨3, 4⟩]).getD 0 0
          + ((gexByStrike [⟨1, 2⟩, ⟨3, 4⟩]).map Prod.snd).getD 1 0 :=
  ⟨(aggregation_cumulative_prefix_sums [⟨1, 2⟩, ⟨3, 4⟩]).2.2.1
      (by unfold gexByStrike; rw [List.length_map]; decide),
   (aggregation_cumulative_prefix_sums [⟨1, 2⟩, ⟨3, 4⟩]).2.2.2 1 Nat.one_pos
      (by unfold gexByStrike; rw [List.length_map]; decide)⟩
